import Mathlib

/-!
# Flight-logic core of the Asterius CanSat (`src/sensors.cpp`)

A shallow embedding of the cipher (`process`), the flight-phase detector
(`findPhase`), the detachment controller (`detach`) and the radio handlers
(`connect`, `receive`, `listenForOrders`), followed by the properties proved
about them.

Conventions of the embedding:

* a C string is the list of its bytes before the terminating NUL, each byte a
  `Nat`; `strlen` is the length of that list; a buffer read as a C string
  stands for its text `cstr`, the bytes before its first NUL;
* `uint8_t` variables are `Nat` values reduced modulo 256 where the source
  increments or subtracts;
* a `float` is a binary32 value `Flt`: NaN, an infinity, or a finite value
  counted in units of `2^-149`; subtraction rounds to nearest, ties to even;
* the globals `lv`, `phase`, `landed`, `detached` and the commands sent to the
  servo form the record `Mission`, passed explicitly.
-/

namespace CanSat

set_option maxRecDepth 8000

/-! ## Cipher engine -/

/-- C `isspace` in the default locale: space, and `\t \n \v \f \r`. -/
def isspace (x : Nat) : Bool := x == 32 || (9 ≤ x && x ≤ 13)

/-- C `isupper` in the default locale. -/
def isupper (x : Nat) : Bool := 65 ≤ x && x ≤ 90

/-- The `for` loop of `process`, one iteration per unit of fuel.
`i` and `c` are the `uint8_t` loop index and letter counter, `mod` the parity
selected by the mode; `none` means the fuel ran out before the loop exited. -/
def processLoop (mod offset : Nat) : Nat → Nat → Nat → List Nat → Option (List Nat)
  | 0, _, _, _ => none
  | fuel + 1, i, c, data =>
    if i < data.length then
      let x := data.getD i 0
      if isspace x || ((x < 65 || x > 90) && (x < 97 || x > 122)) then
        processLoop mod offset fuel ((i + 1) % 256) c data
      else
        let s := if c % 2 = mod then (256 + 26 - offset) % 256 else offset
        let value := if isupper x then 65 else 97
        processLoop mod offset fuel ((i + 1) % 256) ((c + 1) % 256)
          (data.set i (((x + s - value) % 26 + value) % 256))
    else some data

/-- Function `process(mode, data, offset)`: mode 1 encrypts, any other mode decrypts.
The index `i` is a `uint8_t`, so the loop either exits within 256 tests of
its condition or never does (`processLoop_fuel_irrelevant`); `none` is the
second case. -/
def process (mode : Nat) (data : List Nat) (offset : Nat) : Option (List Nat) :=
  processLoop (if mode = 1 then 0 else 1) offset 256 0 1 data

/-- Bytes of a string literal. -/
def str (s : String) : List Nat := s.toList.map Char.toNat

/-- Characters the loop of `process` steps over (its `continue` test). -/
def skipped (x : Nat) : Bool := isspace x || ((x < 65 || x > 90) && (x < 97 || x > 122))

/-- Value written by the assignment `data[i] = ...` for a letter `x` met when the counter is `c`. -/
def shifted (mod offset c x : Nat) : Nat :=
  ((x + (if c % 2 = mod then (256 + 26 - offset) % 256 else offset)
      - (if isupper x then 65 else 97)) % 26 + (if isupper x then 65 else 97)) % 256

/-- List form of the loop of `process`, used to reason about it: the text is
traversed once, the counter advancing on letters only. -/
def cipherFrom (mod offset : Nat) : Nat → List Nat → List Nat
  | _, [] => []
  | c, x :: xs =>
    if skipped x then x :: cipherFrom mod offset c xs
    else shifted mod offset c x :: cipherFrom mod offset ((c + 1) % 256) xs

/-- The characters `A-Z` and `a-z`. -/
def isLetter (x : Nat) : Bool := (65 ≤ x && x ≤ 90) || (97 ≤ x && x ≤ 122)

/-- Number of letters strictly before position `i`. -/
def lettersBefore (data : List Nat) (i : Nat) : Nat := (data.take i).countP isLetter

/-! ## Text search -/

/-- C `strstr`: the tail of `hay` starting at the first occurrence of `needle`,
`none` for the NULL pointer. -/
def strstr : List Nat → List Nat → Option (List Nat)
  | [], needle => if needle = [] then some [] else none
  | h :: t, needle =>
    if needle.isPrefixOf (h :: t) then some (h :: t) else strstr t needle

/-- Text held by a buffer: the bytes before the first NUL. -/
def cstr (buf : List Nat) : List Nat := buf.takeWhile (fun b => b != 0)

/-! ## Floats -/

/-- A binary32 (`float`) value. Every finite binary32 value is an integer
multiple of `2^-149`: `fin n` stands for `n * 2^-149`. The two zeros are one
value. -/
inductive Flt where
  | nan
  | ninf
  | fin (n : Int)
  | pinf
  deriving DecidableEq, Repr

/-- The integer nearest to `a / b`, ties to the even one (`b > 0`). -/
def roundHalfEven (a b : Nat) : Nat :=
  if b < 2 * (a % b) ∨ (2 * (a % b) = b ∧ (a / b) % 2 = 1) then a / b + 1 else a / b

/-- Position of the leading bit of `x` (0 for `x < 2`), for `x` below `2^fuel`. -/
def ilog2 : Nat → Nat → Nat
  | 0, _ => 0
  | fuel + 1, x => if x < 2 then 0 else ilog2 fuel (x / 2) + 1

/-- Round-to-nearest-even of the magnitude `a / b` (in units of `2^-149`) to 24
significant bits; `none` when the result reaches `2^128`, the overflow of
binary32. Below `2^24` units the spacing is one unit (subnormals included). -/
def roundMag (a b : Nat) : Option Nat :=
  if 2 ^ 150 * 2 ^ 150 ≤ a / b then none
  else
    let sh := ilog2 300 (a / b) - 23
    let v := roundHalfEven a (b * 2 ^ sh) * 2 ^ sh
    if v < 2 ^ 150 * 2 ^ 127 then some v else none

/-- The binary32 value nearest to `num / den` units of `2^-149`, as IEEE 754
round-to-nearest-even gives it. -/
def round32 (num : Int) (den : Nat) : Flt :=
  match roundMag num.natAbs den with
  | some v => Flt.fin (if num < 0 then -(v : Int) else v)
  | none => if num < 0 then Flt.ninf else Flt.pinf

/-- The binary32 value of the decimal constant `num / den`. -/
def ofFrac (num : Int) (den : Nat) : Flt := round32 (num * ((2 ^ 149 : Nat) : Int)) den

/-- The binary32 value of an integer constant. -/
def ofInt (n : Int) : Flt := ofFrac n 1

/-- Tells whether a value of the model is a value of binary32: rounding leaves it as it is. -/
def isBinary32 : Flt → Bool
  | Flt.fin n => round32 n 1 == Flt.fin n
  | _ => true

/-- C `isnan`. -/
def isnan : Flt → Bool
  | Flt.nan => true
  | _ => false

/-- Single-precision subtraction `x - y`: the exact difference rounded to
binary32; NaN when an operand is NaN or the operands are the same infinity. -/
def fsub : Flt → Flt → Flt
  | Flt.fin a, Flt.fin b => round32 (a - b) 1
  | Flt.fin _, Flt.pinf => Flt.ninf
  | Flt.fin _, Flt.ninf => Flt.pinf
  | Flt.pinf, Flt.fin _ => Flt.pinf
  | Flt.pinf, Flt.ninf => Flt.pinf
  | Flt.ninf, Flt.fin _ => Flt.ninf
  | Flt.ninf, Flt.pinf => Flt.ninf
  | _, _ => Flt.nan

/-- Comparison `x < y`; false when an operand is NaN. -/
def flt : Flt → Flt → Bool
  | Flt.fin a, Flt.fin b => decide (a < b)
  | Flt.ninf, Flt.fin _ => true
  | Flt.ninf, Flt.pinf => true
  | Flt.fin _, Flt.pinf => true
  | _, _ => false

/-- Comparison `x > y`; false when an operand is NaN. -/
def fgt (x y : Flt) : Bool := flt y x

/-- Comparison `x <= y`; false when an operand is NaN. -/
def fle : Flt → Flt → Bool
  | Flt.fin a, Flt.fin b => decide (a ≤ b)
  | Flt.ninf, Flt.ninf => true
  | Flt.ninf, Flt.fin _ => true
  | Flt.ninf, Flt.pinf => true
  | Flt.fin _, Flt.pinf => true
  | Flt.pinf, Flt.pinf => true
  | _, _ => false

/-- The claim's reading of the dead band: the exact difference `x - y` of two
finite values lies strictly between -1 and 1. -/
def exactDiffInBand : Flt → Flt → Bool
  | Flt.fin a, Flt.fin b =>
    decide (-((2 ^ 149 : Nat) : Int) < a - b) && decide (a - b < ((2 ^ 149 : Nat) : Int))
  | _, _ => false

/-! ## Mission state, detachment, flight phase -/

/-- Calls made by `detach` on the servo and the scheduler, in program order. -/
inductive Effect where
  | Motor_write (angle : Nat)
  | delay (ms : Nat)
  | yield_
  | Motor_detach
  deriving DecidableEq, Repr

/-- The globals read and written by `findPhase` and `detach`, with the trace of
effects issued so far. -/
structure Mission where
  lv : Flt
  phase : Nat
  landed : Bool
  detached : Bool
  effects : List Effect
  deriving DecidableEq, Repr

/-- State after static initialisation: `lv = NAN`, `phase = 0`,
`landed = false`, `detached` zero-initialised. -/
def boot : Mission :=
  { lv := Flt.nan, phase := 0, landed := false, detached := false, effects := [] }

/-- Function `detach()`. -/
def detach (s : Mission) : Mission :=
  if s.detached then s
  else
    { s with
      effects := s.effects ++ [Effect.Motor_write 50, Effect.delay 1000, Effect.yield_,
        Effect.Motor_detach]
      detached := true }

/-- Commands of a trace that reach the servo. -/
def actuatorCommands (es : List Effect) : List Effect :=
  es.filter (fun e => e matches Effect.Motor_write _ | Effect.Motor_detach)

/-- Function `findPhase()`. `reading` is the value `BME688.readAltitude(gpres)`
returns at this call, `autoDetach` whether `AUTOMATIC_DETACHMENT` is defined.
Returns the phase and the new globals. -/
def findPhase (autoDetach : Bool) (reading : Flt) (s : Mission) : Nat × Mission :=
  if isnan s.lv then (1, { s with lv := reading })
  else if s.landed then (4, s)
  else
    let cv := reading
    let diff := fsub cv s.lv
    let s1 := { s with lv := cv }
    if fgt diff (ofInt (-1)) && flt diff (ofInt 1) then
      if s1.phase = 3 then (4, { s1 with landed := true })
      else (1, s1)
    else
      let s2 := { s1 with phase := if fgt diff (ofInt 0) then 2 else 3 }
      let s3 := if autoDetach && s2.phase = 3 && fle cv (ofInt 700) then detach s2 else s2
      (s3.phase, s3)

/-- Values returned by successive calls of `findPhase`, one per reading. -/
def phases (autoDetach : Bool) : Mission → List Flt → List Nat
  | _, [] => []
  | s, a :: as =>
    (findPhase autoDetach a s).1 :: phases autoDetach (findPhase autoDetach a s).2 as

/-- A state in which `findPhase` has reported the landing. -/
def Landed (s : Mission) : Prop := isnan s.lv = false ∧ s.landed = true

/-- Relation kept by `findPhase` between the globals, the last sample `a` and
the last value returned `r`. -/
def Tracks (s : Mission) (a : Flt) (r : Nat) : Prop :=
  isnan s.lv = false ∧ (s.landed = true ↔ r = 4) ∧
    (s.landed = false → s.lv = a ∧ (s.phase = 3 ↔ r = 3))

/-- The altitudes 0, 100, 200, 199, 198, 198.2 as binary32 values. -/
def referenceFlight : List Flt :=
  [ofInt 0, ofInt 100, ofInt 200, ofInt 199, ofInt 198, ofFrac 1982 10]

/-- The altitudes 10, -0.5 and `0x1.fffffep-2` (that is `(2^24 - 1) * 2^-25`),
all three binary32 values. -/
def tieFlight : List Flt :=
  [ofInt 10, ofFrac (-1) 2, ofFrac 16777215 33554432]

/-- The readings 0, -5, NaN, 10, 10. -/
def nanFlight : List Flt :=
  [ofInt 0, ofInt (-5), Flt.nan, ofInt 10, ofInt 10]

/-! ## Radio handlers -/

/-- Buffer `uint8_t[255]` as `RFM.recv` leaves it: at most 255 bytes, holding a
NUL, so that the C string read from it ends inside the buffer. The text of
the frame is `cstr bytes`. -/
structure Frame where
  bytes : List Nat
  fits : bytes.length ≤ 255
  terminated : 0 ∈ bytes

/-- Marker of a Slave-to-Master frame. -/
def S_TO_M : List Nat := str "[S->M]"

/-- Marker of a Ground-to-Master frame. -/
def G_TO_M : List Nat := str "[G->M]"

/-- Marker of a Master-to-Slave frame. -/
def M_TO_S : List Nat := str "[M->S]"

/-- Command keyword of a Ground-to-Master frame. -/
def DETACH : List Nat := str "DETACH"

/-- The array `resp` of `connect`. -/
def resp : List Nat := str "Asterius:Pairing Success. Start transmitting data. [M->S]"

/-- Acknowledgment text of the pairing reply, without its marker. -/
def ackText : List Nat := str "Asterius:Pairing Success. Start transmitting data."

/-- Bytes put on air by `RFM.send(p, n)`: the first `n` bytes at `p`, here the
text followed by its NUL; nothing when the driver refuses the frame. -/
def RFM_send (sendOk : Bool) (text : List Nat) (n : Nat) : Option (List Nat) :=
  if sendOk then some ((text ++ [0]).take n) else none

/-- Function `connect()`. `rx` is the outcome of `RFM.recv`, `sendOk` the value
`RFM.send` returns, `ptrSize` the value of `sizeof(uint8_t*)`. `process` and
`strstr` read the buffer as a C string, so they act on its text `cstr`.
Gives the returned flag and the bytes transmitted; `none` when `process`
does not return. -/
def connect (ptrSize : Nat) (rx : Option Frame) (sendOk : Bool) :
    Option (Bool × Option (List Nat)) :=
  match rx with
  | none => some (false, none)
  | some buffer =>
    match process 2 (cstr buffer.bytes) 1 with
    | none => none
    | some info =>
      if (strstr info S_TO_M).isNone then some (false, none)
      else
        match process 1 resp 1 with
        | none => none
        | some resp_en => some (sendOk, RFM_send sendOk resp_en ptrSize)

/-- Buffer `m` of `receive()` after `m[end-4] = ']'; m[end-3] = 0`, where
`end = strlen(m)`; the buffer is the text followed by its NUL. -/
def relayBuffer (m : List Nat) : List Nat :=
  ((m ++ [0]).set (m.length - 4) 93).set (m.length - 3) 0

/-- Text of `m` after the rewrite of `receive()`. -/
def relayRewrite (m : List Nat) : List Nat := cstr (relayBuffer m)

/-- Function `receive()`: the bytes transmitted, if any, taken from the
rewritten text, its NUL and the bytes of the buffer behind it; outer `none`
when `process` does not return. -/
def receive (ptrSize : Nat) (rx : Option Frame) (sendOk : Bool) :
    Option (Option (List Nat)) :=
  match rx with
  | none => some none
  | some S_packet =>
    match process 2 (cstr S_packet.bytes) 1 with
    | none => none
    | some m =>
      if (strstr m S_TO_M).isSome then
        some (if sendOk then
          some ((relayBuffer m ++ S_packet.bytes.drop (m.length + 1)).take ptrSize)
        else none)
      else some none

/-- Function `listenForOrders()`: the globals after the call; `none` when
`process` does not return. `process` and `strstr` read `message` as a C
string, so they act on its text `cstr`. -/
def listenForOrders (rx : Option Frame) (s : Mission) : Option Mission :=
  match rx with
  | none => some s
  | some message =>
    match process 2 (cstr message.bytes) 1 with
    | none => none
    | some order =>
      if (strstr order G_TO_M).isSome then
        if (strstr order DETACH).isSome then some (detach s) else some s
      else some s

/-! ## The loop of `process` -/

theorem processLoop_eq_cipherFrom (mod offset : Nat) :
    ∀ (suf pre : List Nat) (c fuel : Nat), pre.length + suf.length ≤ 255 → suf.length < fuel →
      processLoop mod offset fuel pre.length c (pre ++ suf)
        = some (pre ++ cipherFrom mod offset c suf) := by
  intro suf
  induction suf with
  | nil =>
    intro pre c fuel _ hf
    obtain ⟨f, rfl⟩ : ∃ f, fuel = f + 1 := ⟨fuel - 1, by simp at hf; omega⟩
    simp [processLoop, cipherFrom]
  | cons x xs ih =>
    intro pre c fuel hlen hf
    obtain ⟨f, rfl⟩ : ∃ f, fuel = f + 1 := ⟨fuel - 1, by omega⟩
    simp only [List.length_cons] at hlen hf
    have hi : (pre.length + 1) % 256 = (pre ++ [x]).length := by
      simp; omega
    have hget : (pre ++ x :: xs).getD pre.length 0 = x := by
      rw [List.getD_eq_getElem?_getD, List.getElem?_append_right (le_refl _)]; simp
    have hlt : pre.length < (pre ++ x :: xs).length := by simp
    rw [processLoop, if_pos hlt]
    simp only [hget]
    by_cases hs : skipped x = true
    · have hs2 := hs
      unfold skipped at hs2
      rw [if_pos hs2, hi]
      have hd : pre ++ x :: xs = (pre ++ [x]) ++ xs := by simp
      rw [hd, ih (pre ++ [x]) c f (by simp; omega) (by omega)]
      simp [cipherFrom, hs]
    · have hs2 := hs
      unfold skipped at hs2
      rw [if_neg hs2, hi]
      have hd : (pre ++ x :: xs).set pre.length (shifted mod offset c x)
          = (pre ++ [shifted mod offset c x]) ++ xs := by simp
      have hi2 : (pre ++ [x]).length = (pre ++ [shifted mod offset c x]).length := by simp
      have := ih (pre ++ [shifted mod offset c x]) ((c + 1) % 256) f (by simp; omega) (by omega)
      rw [← hd, ← hi2] at this
      unfold shifted at this
      rw [this]
      simp [cipherFrom, hs, shifted]

/-- On a text of at most 255 characters `process` returns, and its result is `cipherFrom`. -/
theorem process_eq_cipherFrom (mode : Nat) (data : List Nat) (offset : Nat)
    (h : data.length ≤ 255) :
    process mode data offset = some (cipherFrom (if mode = 1 then 0 else 1) offset 1 data) := by
  have := processLoop_eq_cipherFrom (if mode = 1 then 0 else 1) offset data [] 1 256
    (by simpa using h) (by omega)
  simpa [process] using this

/-- On a text of 256 characters or more the index wraps before reaching the
length: the loop exits for no amount of fuel. -/
theorem processLoop_diverges (mod offset : Nat) :
    ∀ (fuel i c : Nat) (data : List Nat), 256 ≤ data.length → i < 256 →
      processLoop mod offset fuel i c data = none := by
  intro fuel
  induction fuel with
  | zero => intro i c data _ _; rfl
  | succ f ih =>
    intro i c data hlen hi
    rw [processLoop, if_pos (by omega)]
    simp only
    split
    · exact ih _ _ _ hlen (Nat.mod_lt _ (by norm_num))
    · exact ih _ _ _ (by simpa using hlen) (Nat.mod_lt _ (by norm_num))

theorem process_diverges (mode : Nat) (data : List Nat) (offset : Nat)
    (h : 256 ≤ data.length) : process mode data offset = none :=
  processLoop_diverges _ _ _ _ _ _ h (by norm_num)

/-- The fuel of `process` is enough: more fuel never changes the outcome. -/
theorem processLoop_fuel_irrelevant (mode : Nat) (data : List Nat) (offset fuel : Nat)
    (hf : 256 ≤ fuel) :
    processLoop (if mode = 1 then 0 else 1) offset fuel 0 1 data = process mode data offset := by
  by_cases h : data.length ≤ 255
  · rw [process_eq_cipherFrom mode data offset h]
    have := processLoop_eq_cipherFrom (if mode = 1 then 0 else 1) offset data [] 1 fuel
      (by simpa using h) (by omega)
    simpa using this
  · rw [process_diverges mode data offset (by omega)]
    exact processLoop_diverges _ _ _ _ _ _ (by omega) (by norm_num)

/-! ## Properties of the traversal -/

theorem skipped_eq_not_isLetter (x : Nat) : skipped x = !isLetter x := by
  unfold skipped isLetter isspace
  rw [Bool.eq_iff_iff]
  simp only [Bool.or_eq_true, Bool.and_eq_true, decide_eq_true_eq, Bool.not_eq_true',
    Bool.or_eq_false_iff, Bool.and_eq_false_imp, decide_eq_false_iff_not, beq_iff_eq]
  omega

theorem cipherFrom_length (mod offset : Nat) :
    ∀ (xs : List Nat) (c : Nat), (cipherFrom mod offset c xs).length = xs.length := by
  intro xs
  induction xs with
  | nil => intro c; rfl
  | cons x xs ih =>
    intro c
    unfold cipherFrom
    split <;> simp [ih]

theorem shifted_parity (mod offset c d x : Nat) (h : c % 2 = d % 2) :
    shifted mod offset c x = shifted mod offset d x := by
  unfold shifted
  rw [h]

theorem cipherFrom_parity (mod offset : Nat) :
    ∀ (xs : List Nat) (c d : Nat), c % 2 = d % 2 →
      cipherFrom mod offset c xs = cipherFrom mod offset d xs := by
  intro xs
  induction xs with
  | nil => intro c d _; rfl
  | cons x xs ih =>
    intro c d h
    unfold cipherFrom
    split
    · rw [ih c d h]
    · rw [shifted_parity mod offset c d x h, ih ((c + 1) % 256) ((d + 1) % 256) (by omega)]

/-- Character at each position of the traversal, by the number of letters before it. -/
theorem cipherFrom_getElem? (mod offset : Nat) :
    ∀ (xs : List Nat) (c i : Nat),
      (cipherFrom mod offset c xs)[i]? =
        (xs[i]?).map (fun x =>
          if isLetter x then shifted mod offset (c + lettersBefore xs i) x else x) := by
  intro xs
  induction xs with
  | nil => intro c i; simp [cipherFrom]
  | cons x xs ih =>
    intro c i
    cases i with
    | zero =>
      unfold cipherFrom
      simp [skipped_eq_not_isLetter, lettersBefore]
      cases isLetter x <;> simp
    | succ i =>
      unfold cipherFrom
      by_cases hx : isLetter x = true
      · simp only [skipped_eq_not_isLetter, hx, Bool.not_true, Bool.false_eq_true, if_false,
          List.getElem?_cons_succ]
        rw [cipherFrom_parity mod offset xs ((c + 1) % 256) (c + 1) (by omega), ih (c + 1) i]
        have : lettersBefore (x :: xs) (i + 1) = lettersBefore xs i + 1 := by
          simp [lettersBefore, List.countP_cons, hx]
        rw [this]
        congr 1
        funext y
        split
        · exact shifted_parity _ _ _ _ _ (by omega)
        · rfl
      · simp only [Bool.not_eq_true] at hx
        simp only [skipped_eq_not_isLetter, hx, Bool.not_false, if_true, List.getElem?_cons_succ]
        rw [ih c i]
        have : lettersBefore (x :: xs) (i + 1) = lettersBefore xs i := by
          simp [lettersBefore, List.countP_cons, hx]
        rw [this]

theorem shifted_upper (mod offset c x : Nat) (ho : offset ≤ 26) (h1 : 65 ≤ x) (h2 : x ≤ 90) :
    shifted mod offset c x = 65 + (x - 65 + (if c % 2 = mod then 26 - offset else offset)) % 26 := by
  unfold shifted isupper
  simp only [h1, h2, decide_True, Bool.and_self, if_true]
  split <;> omega

theorem shifted_lower (mod offset c x : Nat) (ho : offset ≤ 26) (h1 : 97 ≤ x) (h2 : x ≤ 122) :
    shifted mod offset c x = 97 + (x - 97 + (if c % 2 = mod then 26 - offset else offset)) % 26 := by
  unfold shifted isupper
  have h3 : ¬ x ≤ 90 := by omega
  simp only [h3, decide_False, Bool.and_false, Bool.false_eq_true, if_false]
  split <;> omega

theorem isLetter_iff (x : Nat) :
    isLetter x = true ↔ (65 ≤ x ∧ x ≤ 90) ∨ (97 ≤ x ∧ x ≤ 122) := by
  unfold isLetter
  simp only [Bool.or_eq_true, Bool.and_eq_true, decide_eq_true_eq]

theorem shifted_inverse (offset c x : Nat) (ho : offset < 26) (hx : isLetter x = true) :
    isLetter (shifted 0 offset c x) = true ∧
      shifted 1 offset c (shifted 0 offset c x) = x := by
  rw [isLetter_iff] at hx
  rcases hx with ⟨h1, h2⟩ | ⟨h1, h2⟩
  · have e := shifted_upper 0 offset c x (by omega) h1 h2
    have b1 : 65 ≤ shifted 0 offset c x := by omega
    have b2 : shifted 0 offset c x ≤ 90 := by omega
    refine ⟨(isLetter_iff _).2 (Or.inl ⟨b1, b2⟩), ?_⟩
    rw [shifted_upper 1 offset c _ (by omega) b1 b2, e]
    rcases Nat.mod_two_eq_zero_or_one c with hc | hc <;> simp [hc] <;> omega
  · have e := shifted_lower 0 offset c x (by omega) h1 h2
    have b1 : 97 ≤ shifted 0 offset c x := by omega
    have b2 : shifted 0 offset c x ≤ 122 := by omega
    refine ⟨(isLetter_iff _).2 (Or.inr ⟨b1, b2⟩), ?_⟩
    rw [shifted_lower 1 offset c _ (by omega) b1 b2, e]
    rcases Nat.mod_two_eq_zero_or_one c with hc | hc <;> simp [hc] <;> omega

theorem cipherFrom_inverse (offset : Nat) (ho : offset < 26) :
    ∀ (xs : List Nat) (c : Nat),
      cipherFrom 1 offset c (cipherFrom 0 offset c xs) = xs := by
  intro xs
  induction xs with
  | nil => intro c; rfl
  | cons x xs ih =>
    intro c
    by_cases hx : isLetter x = true
    · obtain ⟨hl, hinv⟩ := shifted_inverse offset c x ho hx
      simp [cipherFrom, skipped_eq_not_isLetter, hx, hl, hinv, ih]
    · simp only [Bool.not_eq_true] at hx
      simp [cipherFrom, skipped_eq_not_isLetter, hx, ih]

/-! ## Claims on the cipher -/

/-- C1, as stated, fails: on a text of 256 characters the `uint8_t` index of
`process` wraps to 0 before reaching the length, the loop of the encrypting
call exits for no amount of fuel, and so the round trip does not give the
text back. -/
theorem C1_roundtrip_fails_at_256 :
    (∀ fuel, processLoop 0 0 fuel 0 1 (List.replicate 256 65) = none) ∧
      process 1 (List.replicate 256 65) 0 = none ∧
      (process 1 (List.replicate 256 65) 0).bind (fun e => process 2 e 0)
        ≠ some (List.replicate 256 65) := by
  have h : process 1 (List.replicate 256 65) 0 = none :=
    process_diverges 1 _ 0 (by rw [List.length_replicate])
  refine ⟨fun fuel => processLoop_diverges 0 0 fuel 0 1 _ (by rw [List.length_replicate])
    (by norm_num), h, ?_⟩
  rw [h, Option.none_bind]
  intro hh
  cases hh

/-- C1, amended: for every string `s` of at most 255 characters and every offset
`o < 26`, encrypting `s` with mode 1 returns a text `e`, and decrypting `e` with
mode 2 under the same offset returns `s`. -/
theorem C1_roundtrip (s : List Nat) (o : Nat) (hlen : s.length ≤ 255) (ho : o < 26) :
    ∃ e, process 1 s o = some e ∧ process 2 e o = some s := by
  refine ⟨cipherFrom 0 o 1 s, ?_, ?_⟩
  · simpa using process_eq_cipherFrom 1 s o hlen
  · have h := process_eq_cipherFrom 2 (cipherFrom 0 o 1 s) o
      (by rw [cipherFrom_length]; exact hlen)
    rw [h]
    simp [cipherFrom_inverse o ho s 1]

theorem C1_roundtrip_witness :
    (str "Hello, World 42!").length ≤ 255 ∧ 3 < 26 ∧
      ∃ e, process 1 (str "Hello, World 42!") 3 = some e ∧
        process 2 e 3 = some (str "Hello, World 42!") :=
  ⟨by decide, by decide, C1_roundtrip (str "Hello, World 42!") 3 (by decide) (by decide)⟩

/-- C5, as stated, fails: on a text of 256 spaces the loop of `process` exits
for no amount of fuel, so the call returns no string at all, in particular
none of the same length. -/
theorem C5_no_result_at_256 :
    (∀ fuel, processLoop 1 0 fuel 0 1 (List.replicate 256 32) = none) ∧
      ¬ ∃ out, process 2 (List.replicate 256 32) 0 = some out ∧
        out.length = (List.replicate 256 32).length := by
  refine ⟨fun fuel => processLoop_diverges 1 0 fuel 0 1 _ (by rw [List.length_replicate])
    (by norm_num), ?_⟩
  rw [process_diverges 2 _ 0 (by rw [List.length_replicate])]
  rintro ⟨out, hh, _⟩
  cases hh

/-- C5, amended: for every string `s` of at most 255 characters, every mode and
every offset below 26, `process` returns a string of the same length as `s`,
and every position holding a character other than `A-Z`, `a-z` in `s` holds
the same character in the result. -/
theorem C5_nonletters_preserved (mode : Nat) (s : List Nat) (o : Nat)
    (hlen : s.length ≤ 255) (_ho : o < 26) :
    ∃ out, process mode s o = some out ∧ out.length = s.length ∧
      ∀ (i x : Nat), s[i]? = some x → isLetter x = false → out[i]? = some x := by
  refine ⟨_, process_eq_cipherFrom mode s o hlen, cipherFrom_length _ _ _ _, ?_⟩
  intro i x hx hl
  rw [cipherFrom_getElem?, hx]
  simp [hl]

theorem C5_nonletters_preserved_witness :
    (str "a1 b2?").length ≤ 255 ∧ 5 < 26 ∧
      ∃ out, process 2 (str "a1 b2?") 5 = some out ∧ out.length = (str "a1 b2?").length ∧
        ∀ (i x : Nat), (str "a1 b2?")[i]? = some x → isLetter x = false → out[i]? = some x :=
  ⟨by decide, by decide, C5_nonletters_preserved 2 (str "a1 b2?") 5 (by decide) (by decide)⟩

/-- C8, as stated, fails: encrypting the one-letter string "A" with offset 1
gives "B" (a shift by `offset`), not "Z" (a shift by `26 - offset`). -/
theorem C8_instance_gives_B :
    process 1 (str "A") 1 = some (str "B") ∧ process 1 (str "A") 1 ≠ some (str "Z") := by
  decide

/-- C8, amended: in a text of at most 255 characters and for an offset below
26, with `c` the 1-based count of letters met so far and `parityTarget` 0 for
mode 1 and 1 otherwise, `process` moves the `c`-th letter forward within its
own case by `26 - offset` positions modulo 26 when `c mod 2 = parityTarget`,
and by `offset` positions otherwise. -/
theorem C8_shift_rule (mode offset : Nat) (data : List Nat) (i x : Nat)
    (hlen : data.length ≤ 255) (ho : offset < 26)
    (hx : data[i]? = some x) (hl : isLetter x = true) :
    ∃ out, process mode data offset = some out ∧
      out[i]? = some ((if x ≤ 90 then 65 else 97) +
        (x - (if x ≤ 90 then 65 else 97) +
          (if (1 + lettersBefore data i) % 2 = (if mode = 1 then 0 else 1)
            then 26 - offset else offset)) % 26) := by
  refine ⟨_, process_eq_cipherFrom mode data offset hlen, ?_⟩
  rw [cipherFrom_getElem?, hx]
  simp only [Option.map_some', hl, if_true, Option.some.injEq]
  rcases (isLetter_iff x).1 hl with ⟨h1, h2⟩ | ⟨h1, h2⟩
  · simp only [h2, if_true]
    exact shifted_upper _ _ _ _ (by omega) h1 h2
  · have h3 : ¬ x ≤ 90 := by omega
    simp only [h3, if_false]
    exact shifted_lower _ _ _ _ (by omega) h1 h2

theorem C8_shift_rule_witness :
    (str "A").length ≤ 255 ∧ 1 < 26 ∧ (str "A")[0]? = some 65 ∧ isLetter 65 = true ∧
      ∃ out, process 1 (str "A") 1 = some out ∧
        out[0]? = some ((if 65 ≤ 90 then 65 else 97) +
          (65 - (if 65 ≤ 90 then 65 else 97) +
            (if (1 + lettersBefore (str "A") 0) % 2 = (if 1 = 1 then 0 else 1)
              then 26 - 1 else 1)) % 26) :=
  ⟨by decide, by decide, by decide, by decide,
    C8_shift_rule 1 1 (str "A") 0 65 (by decide) (by decide) (by decide) (by decide)⟩

/-! ## Detachment -/

theorem detach_of_detached (s : Mission) (h : s.detached = true) : detach s = s := by
  simp [detach, h]

/-- C4: from `detached == false`, the first call of `detach()` issues
`Motor.write(50)` then `Motor.detach()` and sets the flag; the second call adds
nothing, so two calls issue the release sequence exactly once; and a call made
with the flag already set changes nothing. -/
theorem C4_detach_idempotent :
    (∀ s : Mission, s.detached = false →
      (detach s).detached = true ∧
      (detach s).effects = s.effects ++
        [Effect.Motor_write 50, Effect.delay 1000, Effect.yield_, Effect.Motor_detach] ∧
      actuatorCommands (detach s).effects =
        actuatorCommands s.effects ++ [Effect.Motor_write 50, Effect.Motor_detach] ∧
      (detach (detach s)).detached = true ∧
      detach (detach s) = detach s ∧
      actuatorCommands (detach (detach s)).effects =
        actuatorCommands s.effects ++ [Effect.Motor_write 50, Effect.Motor_detach]) ∧
    (∀ s : Mission, s.detached = true → detach s = s) := by
  refine ⟨?_, detach_of_detached⟩
  intro s h
  have h1 : (detach s).detached = true := by simp [detach, h]
  have h2 : detach (detach s) = detach s := detach_of_detached _ h1
  have h3 : (detach s).effects = s.effects ++
      [Effect.Motor_write 50, Effect.delay 1000, Effect.yield_, Effect.Motor_detach] := by
    simp [detach, h]
  have h4 : actuatorCommands (detach s).effects =
      actuatorCommands s.effects ++ [Effect.Motor_write 50, Effect.Motor_detach] := by
    rw [h3]
    simp [actuatorCommands, List.filter_append, List.filter_cons]
  refine ⟨h1, h3, h4, ?_, h2, ?_⟩
  · rw [h2]; exact h1
  · rw [h2]; exact h4

theorem C4_detach_idempotent_witness :
    boot.detached = false ∧
      (detach (detach boot)).detached = true ∧
      (detach (detach boot)).effects =
        [Effect.Motor_write 50, Effect.delay 1000, Effect.yield_, Effect.Motor_detach] := by
  have h := C4_detach_idempotent.1 boot rfl
  refine ⟨rfl, h.2.2.2.1, ?_⟩
  rw [h.2.2.2.2.1, h.2.1]
  rfl

/-! ## Flight phase -/

@[simp] theorem detach_lv (s : Mission) : (detach s).lv = s.lv := by
  unfold detach; split <;> rfl

@[simp] theorem detach_phase (s : Mission) : (detach s).phase = s.phase := by
  unfold detach; split <;> rfl

@[simp] theorem detach_landed (s : Mission) : (detach s).landed = s.landed := by
  unfold detach; split <;> rfl

theorem fsub_nan_left (b : Flt) : fsub Flt.nan b = Flt.nan := by
  cases b <;> rfl

theorem flt_nan_right (c : Flt) : flt c Flt.nan = false := by
  cases c <;> rfl

/-- A difference inside the dead band comes from a reading that is not NaN. -/
theorem isnan_eq_false_of_fgt (a b c : Flt) (h : fgt (fsub a b) c = true) : isnan a = false := by
  cases a with
  | nan => rw [fsub_nan_left, fgt, flt_nan_right] at h; cases h
  | ninf => rfl
  | fin n => rfl
  | pinf => rfl

theorem findPhase_nan (auto : Bool) (a : Flt) (s : Mission) (h : isnan s.lv = true) :
    findPhase auto a s = (1, { s with lv := a }) := by
  simp [findPhase, h]

theorem findPhase_landed (auto : Bool) (a : Flt) (s : Mission)
    (h : isnan s.lv = false) (hl : s.landed = true) : findPhase auto a s = (4, s) := by
  simp [findPhase, h, hl]

theorem findPhase_still (auto : Bool) (a : Flt) (s : Mission)
    (h : isnan s.lv = false) (hl : s.landed = false)
    (hd : (fgt (fsub a s.lv) (ofInt (-1)) && flt (fsub a s.lv) (ofInt 1)) = true) :
    findPhase auto a s =
      if s.phase = 3 then (4, { s with lv := a, landed := true })
      else (1, { s with lv := a }) := by
  simp only [findPhase, h, hl, hd, Bool.false_eq_true, if_false, if_true]

theorem findPhase_moving (auto : Bool) (a : Flt) (s : Mission)
    (h : isnan s.lv = false) (hl : s.landed = false)
    (hd : (fgt (fsub a s.lv) (ofInt (-1)) && flt (fsub a s.lv) (ofInt 1)) = false) :
    (findPhase auto a s).1 = (if fgt (fsub a s.lv) (ofInt 0) then 2 else 3) ∧
      (findPhase auto a s).2.lv = a ∧
      (findPhase auto a s).2.landed = false ∧
      (findPhase auto a s).2.phase = (if fgt (fsub a s.lv) (ofInt 0) then 2 else 3) := by
  simp only [findPhase, h, hl, hd, Bool.false_eq_true, if_false]
  split
  · simp
  · split <;> simp

theorem findPhase_of_landed (auto : Bool) (a : Flt) (s : Mission) (h : Landed s) :
    findPhase auto a s = (4, s) :=
  findPhase_landed auto a s h.1 h.2

theorem landed_of_findPhase_eq_four (auto : Bool) (a : Flt) (s : Mission)
    (h : (findPhase auto a s).1 = 4) : Landed (findPhase auto a s).2 := by
  cases hlv : isnan s.lv with
  | true => rw [findPhase_nan auto a s hlv] at h; simp at h
  | false =>
    cases hl : s.landed with
    | true =>
      rw [findPhase_landed auto a s hlv hl]
      exact ⟨hlv, hl⟩
    | false =>
      cases hd : (fgt (fsub a s.lv) (ofInt (-1)) && flt (fsub a s.lv) (ofInt 1)) with
      | true =>
        have ha : isnan a = false := by
          simp only [Bool.and_eq_true] at hd
          exact isnan_eq_false_of_fgt a s.lv _ hd.1
        rw [findPhase_still auto a s hlv hl hd] at h ⊢
        split
        · exact ⟨ha, rfl⟩
        · rename_i hp
          simp [hp] at h
      | false =>
        have hm := (findPhase_moving auto a s hlv hl hd).1
        rw [hm] at h
        split at h <;> simp at h

theorem phases_of_landed (auto : Bool) :
    ∀ (as : List Flt) (s : Mission), Landed s →
      phases auto s as = List.replicate as.length 4 := by
  intro as
  induction as with
  | nil => intro s _; rfl
  | cons a as ih =>
    intro s h
    simp only [phases, findPhase_of_landed auto a s h, List.length_cons, List.replicate_succ,
      ih s h]

/-- C2: in every sequence of calls of `findPhase`, from any state of the
globals and whatever the readings (NaN included), once a call has returned 4
every later call returns 4. -/
theorem C2_landed_terminal (auto : Bool) :
    ∀ (readings : List Flt) (s : Mission) (i j : Nat), i ≤ j → j < readings.length →
      (phases auto s readings)[i]? = some 4 → (phases auto s readings)[j]? = some 4 := by
  intro readings
  induction readings with
  | nil => intro s i j _ hj _; simp at hj
  | cons a as ih =>
    intro s i j hij hj hi
    cases i with
    | zero =>
      simp only [phases, List.getElem?_cons_zero, Option.some.injEq] at hi
      have hl := landed_of_findPhase_eq_four auto a s hi
      simp only [phases, hi, phases_of_landed auto as _ hl]
      rw [← List.replicate_succ, List.getElem?_replicate]
      simp only [List.length_cons] at hj
      simp [hj]
    | succ i =>
      obtain ⟨j, rfl⟩ : ∃ j', j = j' + 1 := ⟨j - 1, by omega⟩
      simp only [phases, List.getElem?_cons_succ] at hi ⊢
      exact ih _ i j (by omega) (by simpa using hj) hi

theorem C2_landed_terminal_witness :
    (1 : Nat) ≤ 3 ∧ 3 < [ofInt 5, ofInt 5, Flt.nan, ofInt 900].length ∧
      (phases true { boot with lv := ofInt 5, phase := 3 }
        [ofInt 5, ofInt 5, Flt.nan, ofInt 900])[3]? = some 4 :=
  ⟨by decide, by decide,
    C2_landed_terminal true [ofInt 5, ofInt 5, Flt.nan, ofInt 900]
      { boot with lv := ofInt 5, phase := 3 } 1 3 (by decide) (by decide) (by decide)⟩

/-- C9: from the boot state the first call of `findPhase`, whatever the
altitude read, returns 1, stores the altitude in `lv`, and leaves `phase`,
`landed`, `detached` and the servo untouched. -/
theorem C9_first_call (auto : Bool) (a : Flt) :
    findPhase auto a boot = (1, { boot with lv := a }) ∧
      (findPhase auto a boot).1 = 1 ∧
      (findPhase auto a boot).2.lv = a ∧
      (findPhase auto a boot).2.phase = boot.phase ∧
      (findPhase auto a boot).2.landed = boot.landed ∧
      (findPhase auto a boot).2.detached = boot.detached ∧
      (findPhase auto a boot).2.effects = boot.effects := by
  have h : findPhase auto a boot = (1, { boot with lv := a }) := by
    simp [findPhase, isnan, boot]
  rw [h]
  exact ⟨rfl, rfl, rfl, rfl, rfl, rfl, rfl⟩

/-! ## Landing criterion -/

theorem tracks_boot_step (auto : Bool) (a : Flt) (ha : isnan a = false) :
    findPhase auto a boot = (1, { boot with lv := a }) ∧
      Tracks { boot with lv := a } a 1 := by
  refine ⟨findPhase_nan auto _ boot rfl, ?_⟩
  simp [Tracks, boot, ha]

theorem tracks_step (auto : Bool) (s : Mission) (a b : Flt) (r : Nat) (hb : isnan b = false)
    (h : Tracks s a r) :
    Tracks (findPhase auto b s).2 b (findPhase auto b s).1 := by
  obtain ⟨h1, h2, h3⟩ := h
  cases hl : s.landed with
  | true =>
    rw [findPhase_of_landed auto _ s ⟨h1, hl⟩]
    exact ⟨h1, by simp [hl], by simp [hl]⟩
  | false =>
    cases hd : (fgt (fsub b s.lv) (ofInt (-1)) && flt (fsub b s.lv) (ofInt 1)) with
    | true =>
      rw [findPhase_still auto _ s h1 hl hd]
      by_cases hp : s.phase = 3
      · simp [hp, Tracks, hb]
      · simp [hp, Tracks, hl, hb]
    | false =>
      obtain ⟨m1, m2, m3, m4⟩ := findPhase_moving auto b s h1 hl hd
      refine ⟨by rw [m2]; exact hb, ?_, ?_⟩
      · rw [m1, m3]
        split <;> simp
      · intro _
        exact ⟨m2, by rw [m1, m4]⟩

/-- One call after a sample: it is the first to return 4 exactly when the
computed difference is inside the dead band and the call before returned 3. -/
theorem landing_step (auto : Bool) (s : Mission) (a b : Flt) (r : Nat) (h : Tracks s a r) :
    ((findPhase auto b s).1 = 4 ∧ r ≠ 4) ↔
      (fgt (fsub b a) (ofInt (-1)) = true ∧ flt (fsub b a) (ofInt 1) = true ∧ r = 3) := by
  obtain ⟨h1, h2, h3⟩ := h
  cases hl : s.landed with
  | true =>
    have hr : r = 4 := h2.1 hl
    simp [hr]
  | false =>
    obtain ⟨hlv, hp⟩ := h3 hl
    have hr : r ≠ 4 := fun e => by simp [h2.2 e] at hl
    rw [← hlv]
    cases hd : (fgt (fsub b s.lv) (ofInt (-1)) && flt (fsub b s.lv) (ofInt 1)) with
    | true =>
      rw [findPhase_still auto _ s h1 hl hd]
      have hd2 := hd
      simp only [Bool.and_eq_true] at hd2
      by_cases hp3 : s.phase = 3
      · simp [hp3, hr, hd2, hp.1 hp3]
      · have : r ≠ 3 := fun e => hp3 (hp.2 e)
        simp [hp3, this]
    | false =>
      have hm := (findPhase_moving auto b s h1 hl hd).1
      have h4 : (findPhase auto b s).1 ≠ 4 := by
        rw [hm]; split <;> simp
      constructor
      · intro hh; exact absurd hh.1 h4
      · intro hh
        have : (fgt (fsub b s.lv) (ofInt (-1)) && flt (fsub b s.lv) (ofInt 1)) = true := by
          simp [hh.1, hh.2.1]
        rw [hd] at this
        exact absurd this Bool.false_ne_true

theorem forall_lt_succ_cons (o : Nat) (l : List Nat) (k : Nat) :
    (∀ j, j < k + 1 → (o :: l)[j]? ≠ some 4) ↔ (o ≠ 4 ∧ ∀ j, j < k → l[j]? ≠ some 4) := by
  constructor
  · intro h
    refine ⟨by simpa using h 0 (by omega), ?_⟩
    intro j hj
    simpa using h (j + 1) (by omega)
  · rintro ⟨h0, h⟩ j hj
    cases j with
    | zero => simpa using h0
    | succ j => simpa using h j (by omega)

theorem landing_general (auto : Bool) :
    ∀ (as : List Flt) (s : Mission) (a : Flt) (r k : Nat), (∀ x ∈ as, isnan x = false) →
      Tracks s a r →
      (((phases auto s as)[k]? = some 4 ∧
          (∀ j, j < k → (phases auto s as)[j]? ≠ some 4) ∧ r ≠ 4) ↔
        ∃ p q, (a :: as)[k]? = some p ∧ as[k]? = some q ∧
          fgt (fsub q p) (ofInt (-1)) = true ∧ flt (fsub q p) (ofInt 1) = true ∧
          (r :: phases auto s as)[k]? = some 3) := by
  intro as
  induction as with
  | nil => intro s a r k _ _; simp [phases]
  | cons b bs ih =>
    intro s a r k hn h
    have hb : isnan b = false := hn b (List.mem_cons_self _ _)
    have hbs : ∀ x ∈ bs, isnan x = false := fun x hx => hn x (List.mem_cons_of_mem _ hx)
    cases k with
    | zero =>
      have := landing_step auto s a b r h
      simp only [phases, List.getElem?_cons_zero, Option.some.injEq]
      constructor
      · rintro ⟨e, _, hr⟩
        exact ⟨a, b, rfl, rfl, (this.1 ⟨e, hr⟩).1, (this.1 ⟨e, hr⟩).2.1, (this.1 ⟨e, hr⟩).2.2⟩
      · rintro ⟨p, q, rfl, rfl, c1, c2, c3⟩
        exact ⟨(this.2 ⟨c1, c2, c3⟩).1, by intro j hj; omega, (this.2 ⟨c1, c2, c3⟩).2⟩
    | succ k =>
      have hstep := tracks_step auto s a b r hb h
      have hih := ih (findPhase auto b s).2 b (findPhase auto b s).1 k hbs hstep
      simp only [phases, List.getElem?_cons_succ, forall_lt_succ_cons]
      constructor
      · rintro ⟨e, ⟨ho, hall⟩, _⟩
        exact hih.1 ⟨e, hall, ho⟩
      · intro hh
        obtain ⟨e, hall, ho⟩ := hih.2 hh
        refine ⟨e, ⟨ho, hall⟩, ?_⟩
        intro hr
        have hl : Landed s := ⟨h.1, h.2.1.2 hr⟩
        obtain ⟨p, q, _, _, _, _, h3⟩ := hh
        have hrep := phases_of_landed auto (b :: bs) s hl
        simp only [phases] at hrep
        rw [hrep, List.getElem?_replicate] at h3
        split at h3 <;> simp at h3

theorem phases_referenceFlight (auto : Bool) :
    phases auto boot referenceFlight = [1, 2, 2, 3, 3, 4] := by
  cases auto <;> decide

/-- C3, as stated, fails: on the binary32 altitudes 10, -0.5, `0x1.fffffep-2`
the second call returns 3 and the third altitude differs from the second by
`1 - 2^-25`, strictly between -1 and 1, yet the third call returns 2, not 4:
the single-precision difference `cv - lv` rounds to 1. And on the readings
0, -5, NaN, 10, 10 the fifth call is the first to return 4 although the
fourth returned 1: the NaN put `findPhase` back on its first-call path. -/
theorem C3_exact_band_is_not_the_criterion :
    (∀ x ∈ tieFlight, isBinary32 x = true ∧ isnan x = false) ∧
      tieFlight = [Flt.fin (10 * ((2 ^ 149 : Nat) : Int)), Flt.fin (-((2 ^ 148 : Nat) : Int)),
        Flt.fin (((2 ^ 24 - 1) * 2 ^ 124 : Nat) : Int)] ∧
      exactDiffInBand (Flt.fin (((2 ^ 24 - 1) * 2 ^ 124 : Nat) : Int))
        (Flt.fin (-((2 ^ 148 : Nat) : Int))) = true ∧
      fsub (Flt.fin (((2 ^ 24 - 1) * 2 ^ 124 : Nat) : Int)) (Flt.fin (-((2 ^ 148 : Nat) : Int)))
        = ofInt 1 ∧
      phases false boot tieFlight = [1, 3, 2] ∧
      phases true boot tieFlight = [1, 3, 2] ∧
      ¬ (((phases false boot tieFlight)[2]? = some 4 ∧
            (∀ j, j < 2 → (phases false boot tieFlight)[j]? ≠ some 4)) ↔
          (exactDiffInBand (Flt.fin (((2 ^ 24 - 1) * 2 ^ 124 : Nat) : Int))
              (Flt.fin (-((2 ^ 148 : Nat) : Int))) = true ∧
            (phases false boot tieFlight)[1]? = some 3)) ∧
      phases false boot nanFlight = [1, 3, 3, 1, 4] ∧
      exactDiffInBand (ofInt 10) (ofInt 10) = true := by
  decide

/-- C3, amended: for every sequence of altitude samples other than NaN fed to
`findPhase` from the boot state, the call of index `k` is the first to return
4 if and only if it has a predecessor, the single-precision difference
`cv - lv` between its altitude and the previous sample is more than -1 and
less than 1, and the previous call returned 3; and the altitudes
0, 100, 200, 199, 198, 198.2 give the returns 1, 2, 2, 3, 3, 4. -/
theorem C3_landing_criterion (auto : Bool) :
    (∀ (samples : List Flt) (k : Nat), (∀ x ∈ samples, isnan x = false) →
      (((phases auto boot samples)[k]? = some 4 ∧
          (∀ j, j < k → (phases auto boot samples)[j]? ≠ some 4)) ↔
        (0 < k ∧ ∃ p q, samples[k - 1]? = some p ∧ samples[k]? = some q ∧
          fgt (fsub q p) (ofInt (-1)) = true ∧ flt (fsub q p) (ofInt 1) = true ∧
          (phases auto boot samples)[k - 1]? = some 3))) ∧
    phases auto boot referenceFlight = [1, 2, 2, 3, 3, 4] := by
  refine ⟨?_, phases_referenceFlight auto⟩
  intro samples k hn
  cases samples with
  | nil => simp [phases]
  | cons a as =>
    obtain ⟨hf, ht⟩ := tracks_boot_step auto a (hn a (List.mem_cons_self _ _))
    cases k with
    | zero => simp [phases, hf]
    | succ k =>
      have hg := landing_general auto as _ a 1 k
        (fun x hx => hn x (List.mem_cons_of_mem _ hx)) ht
      simp only [phases, hf, List.getElem?_cons_succ, forall_lt_succ_cons,
        Nat.add_sub_cancel, Nat.succ_pos, true_and]
      rw [← hg]
      simp

theorem C3_landing_criterion_witness :
    (∀ x ∈ referenceFlight, isnan x = false) ∧
      (phases false boot referenceFlight)[5]? = some 4 ∧
      (∀ j, j < 5 → (phases false boot referenceFlight)[j]? ≠ some 4) :=
  ⟨by decide,
    ((C3_landing_criterion false).1 referenceFlight 5 (by decide)).2
      ⟨by decide, ofInt 198, ofFrac 1982 10, by decide, by decide, by decide, by decide,
        by decide⟩⟩

/-! ## Text search and radio handlers -/

/-- The function `strstr` finds the needle exactly when the needle occurs in the text. -/
theorem strstr_isSome_iff (needle : List Nat) :
    ∀ hay : List Nat, (strstr hay needle).isSome = true ↔ needle <:+: hay := by
  intro hay
  induction hay with
  | nil =>
    unfold strstr
    by_cases h : needle = [] <;> simp [h]
  | cons x t ih =>
    unfold strstr
    rw [List.infix_cons_iff]
    by_cases h : needle.isPrefixOf (x :: t) = true
    · simp only [h, if_true, Option.isSome_some, true_iff]
      exact Or.inl (List.isPrefixOf_iff_prefix.1 h)
    · have hn : ¬ needle <+: x :: t := fun hp => h (List.isPrefixOf_iff_prefix.2 hp)
      simp only [h, Bool.false_eq_true, if_false, ih]
      constructor
      · exact Or.inr
      · rintro (hp | hi)
        · exact absurd hp hn
        · exact hi

theorem strstr_isNone_iff (needle hay : List Nat) :
    (strstr hay needle).isNone = true ↔ ¬ needle <:+: hay := by
  rw [← strstr_isSome_iff]
  cases strstr hay needle <;> simp

theorem cstr_length_le (buf : List Nat) : (cstr buf).length ≤ buf.length := by
  unfold cstr
  induction buf with
  | nil => simp
  | cons x xs ih =>
    rw [List.takeWhile_cons]
    split
    · simpa using ih
    · simp

/-- The text of a frame has no NUL byte. -/
theorem cstr_ne_zero (buf : List Nat) : ∀ b ∈ cstr buf, b ≠ 0 := by
  intro b hb
  have := List.mem_takeWhile_imp hb
  simpa using this

/-- On the text of a received frame `process` returns. -/
theorem process_frame (mode : Nat) (f : Frame) (offset : Nat) :
    ∃ out, process mode (cstr f.bytes) offset = some out ∧
      out.length = (cstr f.bytes).length :=
  ⟨_, process_eq_cipherFrom mode (cstr f.bytes) offset
      (le_trans (cstr_length_le _) f.fits), cipherFrom_length _ _ _ _⟩

/-- C7: `listenForOrders()` leaves the globals untouched when no frame is
received; on a received frame, with `order` the text of the buffer after
`process(2, frame, 1)`, the call is `detach()` when `order` contains both
"[G->M]" and "DETACH", and leaves the globals untouched otherwise. From a
state that is not detached the flag is set by the call exactly in the first
case. The text of a buffer ends at its first NUL. -/
theorem C7_ground_dispatch (s : Mission) :
    listenForOrders none s = some s ∧
    ∀ f : Frame, ∃ order, process 2 (cstr f.bytes) 1 = some order ∧
      ((G_TO_M <:+: order ∧ DETACH <:+: order) →
        listenForOrders (some f) s = some (detach s)) ∧
      (¬ (G_TO_M <:+: order ∧ DETACH <:+: order) →
        listenForOrders (some f) s = some s) ∧
      (s.detached = false →
        ∃ s', listenForOrders (some f) s = some s' ∧
          (s'.detached = true ↔ (G_TO_M <:+: order ∧ DETACH <:+: order))) := by
  refine ⟨rfl, ?_⟩
  intro f
  obtain ⟨order, ho, _⟩ := process_frame 2 f 1
  have hyes : (G_TO_M <:+: order ∧ DETACH <:+: order) →
      listenForOrders (some f) s = some (detach s) := by
    rintro ⟨h1, h2⟩
    have e1 := (strstr_isSome_iff G_TO_M order).2 h1
    have e2 := (strstr_isSome_iff DETACH order).2 h2
    simp only [listenForOrders, ho, e1, e2, if_true]
  have hno : ¬ (G_TO_M <:+: order ∧ DETACH <:+: order) →
      listenForOrders (some f) s = some s := by
    intro h
    simp only [listenForOrders, ho]
    by_cases e1 : (strstr order G_TO_M).isSome = true
    · by_cases e2 : (strstr order DETACH).isSome = true
      · exact absurd ⟨(strstr_isSome_iff _ _).1 e1, (strstr_isSome_iff _ _).1 e2⟩ h
      · simp only [e1, e2, if_true, if_false]
        rfl
    · simp only [e1, if_false]
      rfl
  refine ⟨order, ho, hyes, hno, ?_⟩
  intro hd
  by_cases hc : G_TO_M <:+: order ∧ DETACH <:+: order
  · exact ⟨detach s, hyes hc, by simp [detach, hd, hc]⟩
  · exact ⟨s, hno hc, by simp [hd, hc]⟩

/-- A command hidden behind a NUL byte is not read: the buffer holds "a", NUL,
then the encryption of "[G->M]DETACH", and the call does nothing. -/
theorem listenForOrders_stops_at_nul :
    listenForOrders (some ⟨str "a" ++ [0] ++ str "[F->N]CFSBBI" ++ [0], by decide, by decide⟩)
      boot = some boot := by
  decide

/-- A ground order as received: the buffer holds the encryption of
"[G->M]DETACH" and its NUL, and the call detaches. -/
theorem listenForOrders_detaches :
    process 1 (str "[G->M]DETACH") 1 = some (str "[H->L]EDUZDG") ∧
      listenForOrders (some ⟨str "[H->L]EDUZDG" ++ [0], by decide, by decide⟩) boot
        = some (detach boot) := by
  decide

/-- A pairing request as it arrives: the text "[S->M]" encrypted with offset 1. -/
theorem pairingRequest_bytes :
    process 1 S_TO_M 1 = some (str "[T->L]") := by
  decide

/-- C6 fails on the code: on the pairing request "[T->L]" (the encryption of
"[S->M]"), with 4-byte pointers, `connect()` hands `sizeof(resp_en)` = 4 bytes
to the radio, so the frame sent is "Brud", whose decryption "Aste" holds
neither the acknowledgment text nor the marker "[M->S]". -/
theorem C6_reply_is_four_bytes :
    connect 4 (some ⟨str "[T->L]" ++ [0], by decide, by decide⟩) true
        = some (true, some (str "Brud")) ∧
      process 2 (str "Brud") 1 = some (str "Aste") ∧
      (strstr (str "Aste") ackText).isNone = true ∧
      (strstr (str "Aste") M_TO_S).isNone = true := by
  decide

/-- Whatever the request, the frame sent by `connect()` has at most `ptrSize`
bytes: it cannot hold the 50 characters of the acknowledgment. -/
theorem connect_sends_at_most_ptrSize (ptrSize : Nat) (f : Frame) (sendOk : Bool)
    (r : Bool) (frame : List Nat)
    (h : connect ptrSize (some f) sendOk = some (r, some frame)) :
    frame.length ≤ ptrSize := by
  obtain ⟨info, hi, _⟩ := process_frame 2 f 1
  simp only [connect, hi] at h
  split at h
  · simp at h
  · split at h
    · simp at h
    · simp only [RFM_send, Option.some.injEq, Prod.mk.injEq] at h
      obtain ⟨_, h2⟩ := h
      split at h2
      · simp only [Option.some.injEq] at h2
        rw [← h2, List.length_take]
        exact Nat.min_le_left _ _
      · simp at h2

/-- C10, as stated, fails: on "hi[S->M]" the rewrite of `receive()` leaves
"hi[S]", not "hi[M->S]". -/
theorem C10_rewrite_gives_S_marker :
    relayRewrite (str "hi" ++ S_TO_M) = str "hi[S]" ∧
      relayRewrite (str "hi" ++ S_TO_M) ≠ str "hi" ++ M_TO_S := by
  decide

/-- C10, amended: for every decoded message `t ++ "[S->M]"`, the rewrite applied
by `receive()` before replying leaves the text `t ++ "[S]"`. -/
theorem C10_relay_rewrite (t : List Nat) (ht : ∀ b ∈ t, b ≠ 0) :
    relayRewrite (t ++ S_TO_M) = t ++ str "[S]" := by
  have hS : S_TO_M = [91, 83, 45, 62, 77, 93] := by decide
  have hs : str "[S]" = [91, 83, 93] := by decide
  have h1 : (t ++ S_TO_M).length - 4 = t.length + 2 := by simp [hS]
  have h2 : (t ++ S_TO_M).length - 3 = t.length + 3 := by simp [hS]
  unfold relayRewrite relayBuffer
  rw [h1, h2, hS, hs, List.append_assoc,
    List.set_append_right _ _ (by omega), List.set_append_right _ _ (by simp)]
  simp only [Nat.add_sub_cancel_left, List.cons_append, List.nil_append, List.set_cons_succ,
    List.set_cons_zero, cstr]
  rw [List.takeWhile_append_of_pos (by simpa using ht)]
  simp [List.takeWhile]

theorem C10_relay_rewrite_witness :
    (∀ b ∈ str "Asterius:7", b ≠ 0) ∧
      relayRewrite (str "Asterius:7" ++ S_TO_M) = str "Asterius:7" ++ str "[S]" :=
  ⟨by decide, C10_relay_rewrite (str "Asterius:7") (by decide)⟩

end CanSat
